import Mathlib

set_option autoImplicit false
set_option maxHeartbeats 1000000

/- Verification of the orchestration layer of `bin/align/seqcap_align_2.py`
   (mkweskin/phyluce): locus partitioning, coverage filtering, job dispatch
   and per-locus output writing.  Python strings are modelled as `List Char`,
   Python runtime exceptions as the `PyErr` error type of `Except`, and the
   filesystem side effects of a run as an explicit trace of `Event`s. -/

deriving instance DecidableEq for Except

/-- A fasta record as produced by `fasta.FastaReader`: an identifier line and
a sequence, both character strings. -/
structure Record where
  identifier : List Char
  sequence : List Char
deriving DecidableEq

/-- The Python runtime errors the modelled code can raise. -/
inductive PyErr where
  | indexError
  | valueError
  | keyError
  | assertionError
deriving DecidableEq

/-- The locus dictionary (`defaultdict(list)` in the source): an
insertion-ordered association list from locus key to its records. -/
abbrev LocusDict := List (List Char × List Record)

/-- Python `s.split(sep)` for a one-character separator: splits at every
occurrence of `sep` and keeps empty fields, so the result is never empty. -/
def pySplit (sep : Char) : List Char → List (List Char)
  | [] => [[]]
  | c :: rest =>
    if c = sep then [] :: pySplit sep rest
    else
      match pySplit sep rest with
      | [] => [[c]]
      | f :: fs => (c :: f) :: fs

/-- Python list indexing `xs[i]`: `IndexError` when out of range. -/
def pyIndex {α : Type} (xs : List α) (i : Nat) : Except PyErr α :=
  match xs.get? i with
  | some x => Except.ok x
  | none => Except.error PyErr.indexError

/-- Sequencing of expressions that can raise: the Python evaluation order
of a compound expression, stopping at the first exception. -/
def exBind {α β : Type} (x : Except PyErr α) (g : α → Except PyErr β) : Except PyErr β :=
  match x with
  | Except.error e => Except.error e
  | Except.ok a => g a

lemma exBind_ok {α β : Type} (a : α) (g : α → Except PyErr β) :
    exBind (Except.ok a) g = g a := rfl

lemma exBind_err {α β : Type} (e : PyErr) (g : α → Except PyErr β) :
    exBind (Except.error e) g = Except.error e := rfl

lemma pyIndex_ok {α : Type} (xs : List α) (i : Nat) (x : α)
    (hg : xs.get? i = some x) : pyIndex xs i = Except.ok x := by
  unfold pyIndex; rw [hg]

lemma pyIndex_err {α : Type} (xs : List α) (i : Nat)
    (hg : xs.get? i = none) : pyIndex xs i = Except.error PyErr.indexError := by
  unfold pyIndex; rw [hg]

/-- Python `sep.join(xs)` for a one-character separator string. -/
def pyJoin (sep : Char) : List (List Char) → List Char
  | [] => []
  | [x] => x
  | x :: xs => x ++ sep :: pyJoin sep xs

/-- Locus-key extraction, lines 177-181 of the source: the standard scheme
takes `record.identifier.split('|')[1]`; the faircloth scheme joins
`split('|')[0]` and `split('|')[1].split('_')[0]` with `'_'`. -/
def locusKey (faircloth : Bool) (ident : List Char) : Except PyErr (List Char) :=
  if faircloth = false then
    pyIndex (pySplit '|' ident) 1
  else
    exBind (pyIndex (pySplit '|' ident) 0) (fun f0 =>
      exBind (pyIndex (pySplit '|' ident) 1) (fun f1 =>
        exBind (pyIndex (pySplit '_' f1) 0) (fun u0 =>
          Except.ok (pyJoin '_' [f0, u0]))))

/-- Append a record to the bucket of key `k`, creating the bucket on first
use, preserving the dictionary's insertion order (`loci[locus].append`). -/
def dictAppend (loci : LocusDict) (k : List Char) (r : Record) : LocusDict :=
  match loci with
  | [] => [(k, [r])]
  | (k0, rs) :: rest =>
    if k0 = k then (k0, rs ++ [r]) :: rest else (k0, rs) :: dictAppend rest k r

/-- Python `del loci[locus]` (the key is present at every call site). -/
def dictDel (loci : LocusDict) (k : List Char) : LocusDict :=
  loci.filter (fun p => decide (p.1 ≠ k))

/-- `build_locus_dict`, lines 120-128 of the source.  The returned flag
records whether the record was skipped (and the skip printed): with
`ambiguous` false a sequence containing `'N'` is not appended. -/
def build_locus_dict (loci : LocusDict) (locus : List Char) (record : Record)
    (ambiguous : Bool) : LocusDict × Bool :=
  if ambiguous = false then
    if 'N' ∉ record.sequence then (dictAppend loci locus record, false)
    else (loci, true)
  else (dictAppend loci locus record, false)

/-- The partition loop of `get_fasta_dict`, lines 175-182: fold the records
into the locus dictionary; a key-extraction `IndexError` propagates. -/
def buildLoci (faircloth ambiguous : Bool) : List Record → LocusDict → Except PyErr LocusDict
  | [], loci => Except.ok loci
  | r :: rest, loci =>
    match locusKey faircloth r.identifier with
    | Except.error e => Except.error e
    | Except.ok k => buildLoci faircloth ambiguous rest (build_locus_dict loci k r ambiguous).1

/-- One field of a Python format string, as parsed left to right:
literal text, an automatically numbered field, or a manually numbered one. -/
inductive FmtTok where
  | lit (s : List Char)
  | auto
  | manual (i : Nat)
deriving DecidableEq

/-- The field-numbering state of Python `str.format`: no field seen yet,
automatic numbering with the next index, or manual numbering. -/
inductive NumMode where
  | unset
  | autoNext (n : Nat)
  | manualMode
deriving DecidableEq

/-- Python 2.7 `str.format` over a tokenized format string: switching
between manual field numbers and automatic ones raises `ValueError`, and a
field index beyond the argument tuple raises `IndexError`. -/
def pyFormatGo (args : List (List Char)) : List FmtTok → NumMode → Except PyErr (List Char)
  | [], _ => Except.ok []
  | FmtTok.lit s :: rest, m =>
    match pyFormatGo args rest m with
    | Except.error e => Except.error e
    | Except.ok r => Except.ok (s ++ r)
  | FmtTok.auto :: rest, m =>
    match m with
    | NumMode.manualMode => Except.error PyErr.valueError
    | NumMode.unset =>
      match args.get? 0 with
      | none => Except.error PyErr.indexError
      | some a =>
        match pyFormatGo args rest (NumMode.autoNext 1) with
        | Except.error e => Except.error e
        | Except.ok r => Except.ok (a ++ r)
    | NumMode.autoNext n =>
      match args.get? n with
      | none => Except.error PyErr.indexError
      | some a =>
        match pyFormatGo args rest (NumMode.autoNext (n + 1)) with
        | Except.error e => Except.error e
        | Except.ok r => Except.ok (a ++ r)
  | FmtTok.manual i :: rest, m =>
    match m with
    | NumMode.autoNext _ => Except.error PyErr.valueError
    | _ =>
      match args.get? i with
      | none => Except.error PyErr.indexError
      | some a =>
        match pyFormatGo args rest NumMode.manualMode with
        | Except.error e => Except.error e
        | Except.ok r => Except.ok (a ++ r)

/-- Python `template.format(args...)` on a tokenized template. -/
def pyFormat (toks : List FmtTok) (args : List (List Char)) : Except PyErr (List Char) :=
  pyFormatGo args toks NumMode.unset

/-- Python `str(n)` for an int. -/
def natStr (n : Nat) : List Char := (Nat.repr n).data

/-- Tokenization of the line-190 warning template
`DROPPED locus {0}.  Too few taxa (N > 2).` -- one manual field. -/
def relaxedWarnToks : List FmtTok :=
  [FmtTok.lit "DROPPED locus ".data, FmtTok.manual 0,
   FmtTok.lit ".  Too few taxa (N > 2).".data]

/-- Tokenization of the line-194 warning template
`DROPPED locus {0}.  Alignment does not contain all {} taxa.` -- a manual
field followed by an automatic one. -/
def strictWarnToks : List FmtTok :=
  [FmtTok.lit "DROPPED locus ".data, FmtTok.manual 0,
   FmtTok.lit ".  Alignment does not contain all ".data, FmtTok.auto,
   FmtTok.lit " taxa.".data]

/-- The filter loop of `get_fasta_dict`, lines 184-195: iterate over the
snapshot of the dictionary, deleting from the live dictionary every locus
whose record count is below the active policy (relaxed `notstrict`: 3;
strict: `species`) and formatting the corresponding warning. -/
def filterLoci (notstrict : Bool) (species : Nat) :
    List (List Char × List Record) → LocusDict → List (List Char) →
    Except PyErr (LocusDict × List (List Char))
  | [], loci, warns => Except.ok (loci, warns)
  | (locus, data) :: rest, loci, warns =>
    if notstrict = true then
      if data.length < 3 then
        match pyFormat relaxedWarnToks [locus] with
        | Except.error e => Except.error e
        | Except.ok msg => filterLoci notstrict species rest (dictDel loci locus) (warns ++ [msg])
      else filterLoci notstrict species rest loci warns
    else
      if data.length < species then
        match pyFormat strictWarnToks [locus, natStr species] with
        | Except.error e => Except.error e
        | Except.ok msg => filterLoci notstrict species rest (dictDel loci locus) (warns ++ [msg])
      else filterLoci notstrict species rest loci warns

/-- `get_fasta_dict`, lines 169-195: partition the records into the locus
dictionary, then filter it against the coverage policy; returns the
surviving dictionary together with the warnings logged, or the first
exception raised. -/
def get_fasta_dict (faircloth ambiguous notstrict : Bool) (species : Nat)
    (records : List Record) : Except PyErr (LocusDict × List (List Char)) :=
  match buildLoci faircloth ambiguous records [] with
  | Except.error e => Except.error e
  | Except.ok loci => filterLoci notstrict species loci loci []

/-- The format-to-extension table of `write_alignments_to_outdir`,
lines 210-217 of the source. -/
def formats : List (String × String) :=
  [("clustal", ".clw"), ("emboss", ".emboss"), ("fasta", ".fa"),
   ("nexus", ".nex"), ("phylip", ".phylip"), ("stockholm", ".stockholm")]

/-- Python `formats[format]` seen as a partial lookup (`KeyError` if the
key is absent is raised by the caller below). -/
def lookupFormat (format : String) : Option String :=
  (formats.find? (fun p => decide (p.1 = format))).map (fun p => p.2)

/-- `os.path.join(outdir, locus)` for a relative `locus` on a POSIX path. -/
def pathJoin (outdir locus : List Char) : List Char := outdir ++ '/' :: locus

/-- `write_alignments_to_outdir`, lines 209-227: for every `(locus, aln)`
pair whose trimmed alignment is present, write one file named
`os.path.join(outdir, locus) + formats[format]` holding the serialized
alignment; for every absent one, log a drop warning instead.  The trimmed
alignment is modelled by its serialized text (serialization itself is the
external Biopython collaborator).  Returns the written `(path, content)`
pairs in input order together with the dropped locus keys. -/
def write_alignments_to_outdir (outdir : List Char) (format : String) :
    List (List Char × Option (List Char)) →
    Except PyErr (List (List Char × List Char) × List (List Char))
  | [] => Except.ok ([], [])
  | (locus, trimmed) :: rest =>
    match trimmed with
    | some content =>
      match lookupFormat format with
      | none => Except.error PyErr.keyError
      | some ext =>
        match write_alignments_to_outdir outdir format rest with
        | Except.error e => Except.error e
        | Except.ok (files, drops) =>
          Except.ok ((pathJoin outdir locus ++ ext.data, content) :: files, drops)
    | none =>
      match write_alignments_to_outdir outdir format rest with
      | Except.error e => Except.error e
      | Except.ok (files, drops) => Except.ok (files, locus :: drops)

/-- A filesystem-visible step of a run, in the order it happens. -/
inductive Event where
  | prompt
  | rmtree
  | makedirs
  | tmpfile (locus : List Char)
  | fileWrite (path : List Char) (content : List Char)
  | warn (msg : List Char)
deriving DecidableEq

/-- How a modelled run ends early: a clean `sys.exit()` or an uncaught
Python exception. -/
inductive RunExit where
  | exited
  | raised (e : PyErr)
deriving DecidableEq

/-- `create_output_dir`, lines 198-206: when the output directory exists,
prompt; only the exact answer `Y` clears it (`shutil.rmtree`), any other
answer is `sys.exit()` before any destructive step; then `os.makedirs`. -/
def create_output_dir (outdirExists : Bool) (answer : List Char) :
    List Event × Option RunExit :=
  if outdirExists then
    if answer = "Y".data then ([Event.prompt, Event.rmtree, Event.makedirs], none)
    else ([Event.prompt], some RunExit.exited)
  else ([Event.makedirs], none)

/-- The sequential dispatch strategy, line 248: `map(align, params)`. -/
def seqMapResults {α β : Type} (f : α → β) (jobs : List α) : List β := jobs.map f

/-- The jobs a worker pool has completed, tagged with their submission
index, listed in an arbitrary completion order `order`. -/
def poolCompleted {α β : Type} (f : α → β) (jobs : List α) (order : List Nat) :
    List (Nat × β) :=
  order.filterMap (fun i => (jobs.get? i).map (fun j => (i, f j)))

/-- Reassemble one result per submission index; `none` if any is missing. -/
def collateAll {β : Type} (g : Nat → Option β) : List Nat → Option (List β)
  | [] => some []
  | i :: rest =>
    match g i with
    | none => none
    | some b =>
      match collateAll g rest with
      | none => none
      | some bs => some (b :: bs)

/-- The parallel dispatch strategy, `multiprocessing.Pool(cores).map`
(line 246), modelled by its contract: workers finish the submitted jobs in
an arbitrary completion order `order`, and the pool hands the results back
collated by submission index. -/
def poolMapModel {α β : Type} (f : α → β) (jobs : List α) (order : List Nat) :
    Option (List β) :=
  collateAll
    (fun i => ((poolCompleted f jobs order).find? (fun p => p.1 == i)).map (fun p => p.2))
    (List.range jobs.length)

/-- The command-line arguments of the run that the model depends on. -/
structure Args where
  outdir : List Char
  species : Nat
  faircloth : Bool
  notstrict : Bool
  ambiguous : Bool
  cores : Nat

/-- `main` passes no `format` argument at line 251, so the writer runs with
its default `'nexus'` from line 209. -/
def mainFormat : String := "nexus"

/-- The collation tail of `main`: run the output writer and append its
file writes and drop warnings to the event trace. -/
def finishWrite (outdir : List Char) (pref : List Event)
    (alignments : List (List Char × Option (List Char))) :
    List Event × Option RunExit :=
  match write_alignments_to_outdir outdir mainFormat alignments with
  | Except.error e => (pref, some (RunExit.raised e))
  | Except.ok (files, drops) =>
    (pref ++ files.map (fun p => Event.fileWrite p.1 p.2) ++
       drops.map (fun l => Event.warn l), none)

/-- The dispatch-and-write tail of `main`, lines 239-251: only if
`cores > 1`, assert `cores <= cpu_count` before creating the pool; run one
alignment job per surviving locus through the chosen strategy (each job
makes its own temporary file; the aligned-and-trimmed outcome is the
external Aligner, abstracted as `alignFn`); then write the output files. -/
def dispatchStage (args : Args) (cpuCount : Nat)
    (alignFn : List Char × List Record → Option (List Char)) (order : List Nat)
    (ev0 : List Event) (loci : LocusDict) (warns : List (List Char)) :
    List Event × Option RunExit :=
  if 1 < args.cores then
    if args.cores ≤ cpuCount then
      match poolMapModel (fun j => (j.1, alignFn j)) loci order with
      | none =>
        (ev0 ++ warns.map (fun w => Event.warn w), some (RunExit.raised PyErr.valueError))
      | some alignments =>
        finishWrite args.outdir
          (ev0 ++ warns.map (fun w => Event.warn w) ++
            order.filterMap (fun i => (loci.get? i).map (fun j => Event.tmpfile j.1)))
          alignments
    else
      (ev0 ++ warns.map (fun w => Event.warn w), some (RunExit.raised PyErr.assertionError))
  else
    finishWrite args.outdir
      (ev0 ++ warns.map (fun w => Event.warn w) ++ loci.map (fun j => Event.tmpfile j.1))
      (seqMapResults (fun j => (j.1, alignFn j)) loci)

/-- `main`, lines 230-253: create the output directory (prompting first if
it exists), build and filter the locus dictionary, then dispatch the
alignment jobs and write the per-locus output files.  The result is the
ordered trace of filesystem-visible events plus how the run ended. -/
def mainModel (args : Args) (cpuCount : Nat) (outdirExists : Bool)
    (answer : List Char) (records : List Record)
    (alignFn : List Char × List Record → Option (List Char))
    (order : List Nat) : List Event × Option RunExit :=
  match create_output_dir outdirExists answer with
  | (ev0, some e) => (ev0, some e)
  | (ev0, none) =>
    match get_fasta_dict args.faircloth args.ambiguous args.notstrict args.species records with
    | Except.error e => (ev0, some (RunExit.raised e))
    | Except.ok (loci, warns) => dispatchStage args cpuCount alignFn order ev0 loci warns

/-- The two-record locus used to exhibit the strict-mode filter crash. -/
def c2loci : LocusDict :=
  [("uce-1".data, [⟨"sA|uce-1".data, "ACGT".data⟩, ⟨"sB|uce-1".data, "ACGT".data⟩])]

/-- C1: in strict mode (`notstrict=false`) a locus group whose record count
is below `species` is never delivered as part of a filtered mapping: the
code deletes the group and then crashes with `ValueError` while formatting
the drop warning (line 194 mixes the manual field `0` with an automatic
field), so `get_fasta_dict` raises instead of returning the filtered
mapping the claim describes. -/
theorem get_fasta_dict_strict_drop_raises :
    get_fasta_dict false false false 2 [⟨"sA|uce-1".data, "ACGT".data⟩] =
      Except.error PyErr.valueError := by decide

/-- C2: a strict-mode coverage failure is fatal, not locally handled: on
the first locus with fewer than `species` records the filter loop raises
`ValueError` out of the line-194 warning format instead of logging the
warning and continuing. -/
theorem strict_warn_format_raises :
    filterLoci false 4 c2loci c2loci [] = Except.error PyErr.valueError := by decide

/-- C4: `build_locus_dict` appends the record to its locus group exactly
when `ambiguous` is true or the sequence is free of the ambiguity symbol
`'N'`; a record containing `'N'` under `ambiguous=false` is left out of the
dictionary and flagged as skipped (the printed report). -/
theorem build_locus_dict_ambiguous_iff (loci : LocusDict) (locus : List Char)
    (r : Record) (amb : Bool) :
    (build_locus_dict loci locus r amb = (dictAppend loci locus r, false) ↔
      (amb = true ∨ 'N' ∉ r.sequence)) ∧
    (build_locus_dict loci locus r amb = (loci, true) ↔
      (amb = false ∧ 'N' ∈ r.sequence)) := by
  cases amb <;> by_cases h : 'N' ∈ r.sequence <;>
    simp [build_locus_dict, h, Prod.ext_iff]

/-- Closed instance of the C4 theorem: a record with an ambiguous base is
skipped when `ambiguous=false` and kept when `ambiguous=true`. -/
theorem build_locus_dict_ambiguous_iff_witness :
    build_locus_dict [] "uce-9".data ⟨"x|uce-9".data, "ANT".data⟩ false =
      ([], true) ∧
    build_locus_dict [] "uce-9".data ⟨"x|uce-9".data, "ANT".data⟩ true =
      (dictAppend [] "uce-9".data ⟨"x|uce-9".data, "ANT".data⟩, false) :=
  ⟨(build_locus_dict_ambiguous_iff [] "uce-9".data ⟨"x|uce-9".data, "ANT".data⟩ false).2.mpr
      ⟨rfl, by decide⟩,
   (build_locus_dict_ambiguous_iff [] "uce-9".data ⟨"x|uce-9".data, "ANT".data⟩ true).1.mpr
      (Or.inl rfl)⟩

/-- C7: `create_output_dir` removes an existing output directory only after
a prompt answered exactly `Y`; on any other answer it exits cleanly having
done nothing but prompt (no removal, no creation), and on confirmation the
prompt precedes the removal which precedes the creation. -/
theorem create_output_dir_confirmation (outdirExists : Bool) (answer : List Char) :
    (Event.rmtree ∈ (create_output_dir outdirExists answer).1 ↔
      (outdirExists = true ∧ answer = "Y".data)) ∧
    (outdirExists = true → answer ≠ "Y".data →
      create_output_dir outdirExists answer = ([Event.prompt], some RunExit.exited)) ∧
    (outdirExists = true → answer = "Y".data →
      create_output_dir outdirExists answer =
        ([Event.prompt, Event.rmtree, Event.makedirs], none)) := by
  cases outdirExists <;> by_cases h : answer = "Y".data <;>
    simp [create_output_dir, h]

/-- Closed instance of the C7 theorem: answering `n` on an existing output
directory exits with no destructive action, and `rmtree` happens on `Y`. -/
theorem create_output_dir_confirmation_witness :
    create_output_dir true "n".data = ([Event.prompt], some RunExit.exited) ∧
    Event.rmtree ∈ (create_output_dir true "Y".data).1 :=
  ⟨(create_output_dir_confirmation true "n".data).2.1 rfl (by decide),
   (create_output_dir_confirmation true "Y".data).1.mpr ⟨rfl, rfl⟩⟩

/-- Characterization of the output writer on any format present in the
extension table: one file per present trimmed alignment, named by locus
key plus the table extension, and one drop per absent one. -/
theorem write_alignments_spec (outdir : List Char) (fmt ext : String)
    (h : lookupFormat fmt = some ext) :
    ∀ alns : List (List Char × Option (List Char)),
      write_alignments_to_outdir outdir fmt alns =
        Except.ok
          (alns.filterMap (fun p => p.2.map (fun c => (pathJoin outdir p.1 ++ ext.data, c))),
           alns.filterMap (fun p => match p.2 with | none => some p.1 | some _ => none)) := by
  intro alns
  induction alns with
  | nil => rfl
  | cons a rest ih =>
    obtain ⟨locus, trimmed⟩ := a
    cases trimmed with
    | some content => simp [write_alignments_to_outdir, h, ih]
    | none => simp [write_alignments_to_outdir, ih]

/-- C6: for every configured format in the six-entry table, the collator
writes exactly one file per job result with a present trimmed alignment,
named `locus ++ extension` inside the output directory, and records a drop
(writing nothing) for every absent one. -/
theorem write_alignments_files_spec (outdir : List Char) (fmt ext : String)
    (alns : List (List Char × Option (List Char)))
    (h : lookupFormat fmt = some ext) :
    write_alignments_to_outdir outdir fmt alns =
      Except.ok
        (alns.filterMap (fun p => p.2.map (fun c => (pathJoin outdir p.1 ++ ext.data, c))),
         alns.filterMap (fun p => match p.2 with | none => some p.1 | some _ => none)) :=
  write_alignments_spec outdir fmt ext h alns

/-- Closed instance of the C6 theorem at format `fasta`: the present locus
`a` yields the single file `o/a.fa`, the absent locus `b` only a drop. -/
theorem write_alignments_files_spec_witness :
    write_alignments_to_outdir "o".data "fasta"
      [("a".data, some "X".data), ("b".data, none)] =
      Except.ok
        ([("a".data, some ("X".data : List Char)), ("b".data, none)].filterMap
            (fun p => p.2.map (fun c => (pathJoin "o".data p.1 ++ ".fa".data, c))),
         [("a".data, some ("X".data : List Char)), ("b".data, none)].filterMap
            (fun p => match p.2 with | none => some p.1 | some _ => none)) :=
  write_alignments_files_spec "o".data "fasta" ".fa"
    [("a".data, some "X".data), ("b".data, none)] (by decide)

lemma pySplit_ne_nil (sep : Char) (s : List Char) : pySplit sep s ≠ [] := by
  induction s with
  | nil => simp [pySplit]
  | cons c rest ih =>
    simp only [pySplit]
    split
    · simp
    · cases h : pySplit sep rest with
      | nil => simp
      | cons f fs => simp

lemma split_head_takeWhile (sep : Char) (s : List Char) :
    (pySplit sep s).headD [] = s.takeWhile (fun c => c != sep) := by
  induction s with
  | nil => rfl
  | cons c rest ih =>
    by_cases h : c = sep
    · simp [pySplit, h, List.takeWhile_cons]
    · cases hr : pySplit sep rest with
      | nil => exact absurd hr (pySplit_ne_nil sep rest)
      | cons f fs =>
        rw [hr] at ih
        simp only [List.headD_cons] at ih
        simp [pySplit, h, hr, List.takeWhile_cons, ih]

lemma split_singleton (sep : Char) (s : List Char) (h : sep ∉ s) :
    pySplit sep s = [s] := by
  induction s with
  | nil => rfl
  | cons c rest ih =>
    have hc : ¬ c = sep := fun hcs => h (hcs ▸ List.mem_cons_self c rest)
    have hr : sep ∉ rest := fun hm => h (List.mem_cons_of_mem c hm)
    simp [pySplit, hc, ih hr]

lemma split_len_two_of_mem (sep : Char) (s : List Char) (h : sep ∈ s) :
    2 ≤ (pySplit sep s).length := by
  induction s with
  | nil => exact absurd h (List.not_mem_nil sep)
  | cons c rest ih =>
    by_cases hc : c = sep
    · have h1 : 0 < (pySplit sep rest).length :=
        List.length_pos.mpr (pySplit_ne_nil sep rest)
      simp only [pySplit, if_pos hc, List.length_cons]
      omega
    · have hm : sep ∈ rest := by
        rcases List.mem_cons.mp h with h0 | h0
        · exact absurd h0.symm hc
        · exact h0
      have h2 := ih hm
      cases hr : pySplit sep rest with
      | nil => exact absurd hr (pySplit_ne_nil sep rest)
      | cons f fs =>
        rw [hr] at h2
        simp only [pySplit, if_neg hc, hr, List.length_cons] at h2 ⊢
        omega

/-- C8: the locus key is a deterministic function of the identifier.  When
the identifier has at least two pipe-delimited fields, the standard scheme
returns the second field, and the faircloth scheme returns the first field
joined by `'_'` with the prefix of the second field that precedes its first
underscore. -/
theorem locus_key_rules (ident : List Char)
    (h : 2 ≤ (pySplit '|' ident).length) :
    locusKey false ident = Except.ok ((pySplit '|' ident).get ⟨1, h⟩) ∧
    locusKey true ident =
      Except.ok ((pySplit '|' ident).get ⟨0, by omega⟩ ++
        '_' :: ((pySplit '|' ident).get ⟨1, h⟩).takeWhile (fun c => c != '_')) := by
  have h1 : (pySplit '|' ident).get? 1 = some ((pySplit '|' ident).get ⟨1, h⟩) :=
    List.get?_eq_get h
  have h0 : (pySplit '|' ident).get? 0 = some ((pySplit '|' ident).get ⟨0, by omega⟩) :=
    List.get?_eq_get (by omega)
  constructor
  · unfold locusKey
    rw [if_pos rfl, pyIndex_ok _ _ _ h1]
  · cases hsp : pySplit '_' ((pySplit '|' ident).get ⟨1, h⟩) with
    | nil => exact absurd hsp (pySplit_ne_nil _ _)
    | cons f fs =>
      have hf : f = ((pySplit '|' ident).get ⟨1, h⟩).takeWhile (fun c => c != '_') := by
        have ht := split_head_takeWhile '_' ((pySplit '|' ident).get ⟨1, h⟩)
        rw [hsp] at ht
        simpa using ht
      have hg0 : (pySplit '_' ((pySplit '|' ident).get ⟨1, h⟩)).get? 0 = some f := by
        rw [hsp]; rfl
      unfold locusKey
      rw [if_neg (by decide)]
      simp only [pyIndex_ok _ _ _ h0, pyIndex_ok _ _ _ h1, pyIndex_ok _ _ _ hg0,
        exBind_ok, hf]
      rfl

/-- Closed instance of the C8 theorem on `sampleA|uce-11_p3|extra`: the
standard key is `uce-11_p3` and the faircloth key is `sampleA_uce-11`. -/
theorem locus_key_rules_witness :
    locusKey false "sampleA|uce-11_p3|extra".data =
      Except.ok ((pySplit '|' "sampleA|uce-11_p3|extra".data).get ⟨1, by decide⟩) ∧
    locusKey true "sampleA|uce-11_p3|extra".data =
      Except.ok ((pySplit '|' "sampleA|uce-11_p3|extra".data).get ⟨0, by decide⟩ ++
        '_' :: ((pySplit '|' "sampleA|uce-11_p3|extra".data).get ⟨1, by decide⟩).takeWhile
          (fun c => c != '_')) :=
  locus_key_rules "sampleA|uce-11_p3|extra".data (by decide)

lemma locusKey_standard_error (ident : List Char) (e : PyErr)
    (h : locusKey false ident = Except.error e) : e = PyErr.indexError := by
  unfold locusKey pyIndex at h
  rw [if_pos rfl] at h
  cases hg : (pySplit '|' ident).get? 1 with
  | none => rw [hg] at h; simpa using h.symm
  | some x => rw [hg] at h; simp at h

lemma buildLoci_missing_pipe (amb : Bool) (r : Record) (hp : '|' ∉ r.identifier) :
    ∀ records : List Record, r ∈ records →
      ∀ init : LocusDict,
        buildLoci false amb records init = Except.error PyErr.indexError := by
  intro records
  induction records with
  | nil => intro hm; exact absurd hm (List.not_mem_nil r)
  | cons a rest ih =>
    intro hm init
    rcases List.mem_cons.mp hm with heq | hmem
    · subst heq
      have hsplit : pySplit '|' r.identifier = [r.identifier] :=
        split_singleton '|' r.identifier hp
      have hk : locusKey false r.identifier = Except.error PyErr.indexError := by
        simp [locusKey, pyIndex, hsplit]
      simp [buildLoci, hk]
    · cases hk : locusKey false a.identifier with
      | error e =>
        have he := locusKey_standard_error a.identifier e hk
        subst he
        simp [buildLoci, hk]
      | ok k =>
        simp only [buildLoci, hk]
        exact ih hmem _

/-- C10: the standard naming scheme indexes the second pipe-field without
any guard, so one record whose identifier holds no `'|'` makes the whole
partition phase -- and with it `get_fasta_dict` and the run, which install
no handler -- fail with an `IndexError` instead of skipping the record. -/
theorem standard_scheme_missing_pipe_aborts (amb ns : Bool) (species : Nat)
    (records : List Record) (r : Record) (hm : r ∈ records)
    (hp : '|' ∉ r.identifier) :
    get_fasta_dict false amb ns species records = Except.error PyErr.indexError := by
  unfold get_fasta_dict
  rw [buildLoci_missing_pipe amb r hp records hm []]

/-- Closed instance of the C10 theorem: a single record named `nopipe`
crashes the partition phase with `IndexError`. -/
theorem standard_scheme_missing_pipe_aborts_witness :
    get_fasta_dict false false false 4 [⟨"nopipe".data, "ACGT".data⟩] =
      Except.error PyErr.indexError :=
  standard_scheme_missing_pipe_aborts false false 4
    [⟨"nopipe".data, "ACGT".data⟩] ⟨"nopipe".data, "ACGT".data⟩
    (by decide) (by decide)

lemma collateAll_eq_map {β : Type} (g : Nat → Option β) (h : Nat → β) :
    ∀ l : List Nat, (∀ i ∈ l, g i = some (h i)) → collateAll g l = some (l.map h) := by
  intro l
  induction l with
  | nil => intro; rfl
  | cons a t ih =>
    intro hl
    have ha := hl a (List.mem_cons_self a t)
    have ht := ih (fun i hi => hl i (List.mem_cons_of_mem a hi))
    simp [collateAll, ha, ht]

lemma mem_poolCompleted {α β : Type} {f : α → β} {jobs : List α}
    {order : List Nat} {q : Nat × β} (hq : q ∈ poolCompleted f jobs order) :
    ∃ j, jobs.get? q.1 = some j ∧ q.2 = f j := by
  simp only [poolCompleted, List.mem_filterMap, Option.map_eq_some'] at hq
  obtain ⟨i, _, j, hg, hj⟩ := hq
  subst hj
  exact ⟨j, hg, rfl⟩

lemma find_poolCompleted {α β : Type} {f : α → β} {jobs : List α}
    {order : List Nat} (h : order.Perm (List.range jobs.length))
    (i : Nat) (hlt : i < jobs.length) (ji : α) (hg : jobs.get? i = some ji) :
    ∃ q, (poolCompleted f jobs order).find? (fun p => p.1 == i) = some q ∧
      q.2 = f ji := by
  have hmem : (i, f ji) ∈ poolCompleted f jobs order := by
    simp only [poolCompleted, List.mem_filterMap]
    refine ⟨i, ?_, ?_⟩
    · exact h.mem_iff.mpr (List.mem_range.mpr hlt)
    · rw [hg]
      rfl
  have hsome : ((poolCompleted f jobs order).find? (fun p => p.1 == i)).isSome := by
    rw [List.find?_isSome]
    exact ⟨(i, f ji), hmem, by simp⟩
  obtain ⟨q, hq⟩ := Option.isSome_iff_exists.mp hsome
  have hqi : q.1 = i := by simpa using List.find?_some hq
  obtain ⟨j, hgj, hj2⟩ := mem_poolCompleted (List.mem_of_find?_eq_some hq)
  rw [hqi, hg] at hgj
  refine ⟨q, hq, ?_⟩
  rw [hj2, Option.some.inj hgj]

lemma map_range_getD {α β : Type} (l : List α) (f : α → β) (d : α) :
    (List.range l.length).map (fun i => f (l.getD i d)) = l.map f := by
  induction l with
  | nil => rfl
  | cons a t ih =>
    rw [show (a :: t).length = t.length + 1 from rfl, List.range_succ_eq_map,
      List.map_cons, List.map_map, List.map_cons]
    refine congrArg₂ List.cons rfl ?_
    exact ih

/-- C5: the parallel dispatch strategy (the pool contract: jobs complete in
an arbitrary order `order` covering every submitted index) hands back
exactly the sequential strategy's result list -- the per-job procedure
applied to the jobs in submission order -- whatever the completion order. -/
theorem pool_map_preserves_submission_order {α β : Type} (f : α → β)
    (jobs : List α) (order : List Nat)
    (h : order.Perm (List.range jobs.length)) :
    poolMapModel f jobs order = some (seqMapResults f jobs) := by
  cases jobs with
  | nil => rfl
  | cons a t =>
    have key : ∀ i ∈ List.range (a :: t).length,
        (((poolCompleted f (a :: t) order).find? (fun p => p.1 == i)).map (fun p => p.2))
          = some ((fun i => f ((a :: t).getD i a)) i) := by
      intro i hi
      have hlt : i < (a :: t).length := List.mem_range.mp hi
      cases hx : (a :: t).get? i with
      | none =>
        rw [List.get?_eq_get hlt] at hx
        exact absurd hx (by simp)
      | some x =>
        have hgd : (a :: t).getD i a = x := by
          rw [List.getD_eq_getD_get?, hx]
          rfl
        obtain ⟨q, hq, hq2⟩ := find_poolCompleted h i hlt x hx
        rw [hq]
        show some q.2 = some (f ((a :: t).getD i a))
        rw [hq2, hgd]
    unfold poolMapModel seqMapResults
    rw [collateAll_eq_map _ (fun i => f ((a :: t).getD i a)) _ key, map_range_getD]

/-- Closed instance of the C5 theorem: two jobs finishing in reverse order
still produce the sequential result sequence. -/
theorem pool_map_preserves_submission_order_witness :
    poolMapModel Nat.succ [10, 20] [1, 0] = some (seqMapResults Nat.succ [10, 20]) :=
  pool_map_preserves_submission_order Nat.succ [10, 20] [1, 0] (by decide)

lemma create_output_dir_events (outdirExists : Bool) (answer : List Char) :
    ∀ e ∈ (create_output_dir outdirExists answer).1,
      e = Event.prompt ∨ e = Event.rmtree ∨ e = Event.makedirs := by
  cases outdirExists <;> by_cases h : answer = "Y".data <;> intro e he <;>
    simp [create_output_dir, h] at he <;> tauto

lemma makedirs_mem_create (outdirExists : Bool) (answer : List Char)
    (h : outdirExists = false ∨ answer = "Y".data) :
    Event.makedirs ∈ (create_output_dir outdirExists answer).1 := by
  rcases h with h | h
  · subst h; simp [create_output_dir]
  · subst h; cases outdirExists <;> simp [create_output_dir]

lemma no_fileWrite_warns (ev0 : List Event) (ws : List (List Char))
    (hev0 : ∀ p c, Event.fileWrite p c ∉ ev0) (pth ct : List Char) :
    Event.fileWrite pth ct ∉ ev0 ++ ws.map (fun w => Event.warn w) := by
  intro hmem
  rcases List.mem_append.mp hmem with ha | hb
  · exact hev0 pth ct ha
  · rcases List.mem_map.mp hb with ⟨w, _, hw⟩
    exact Event.noConfusion hw

lemma no_fileWrite_pref (ev0 : List Event) (ws : List (List Char)) (ts : List Event)
    (hev0 : ∀ p c, Event.fileWrite p c ∉ ev0)
    (hts : ∀ e ∈ ts, ∃ l, e = Event.tmpfile l) (pth ct : List Char) :
    Event.fileWrite pth ct ∉ ev0 ++ ws.map (fun w => Event.warn w) ++ ts := by
  intro hmem
  rcases List.mem_append.mp hmem with h1 | h2
  · exact no_fileWrite_warns ev0 ws hev0 pth ct h1
  · rcases hts _ h2 with ⟨l, hl⟩
    exact Event.noConfusion hl

lemma finishWrite_fileWrite (outdir : List Char) (pref : List Event)
    (alns : List (List Char × Option (List Char))) (pth ct : List Char)
    (hmem : Event.fileWrite pth ct ∈ (finishWrite outdir pref alns).1) :
    Event.fileWrite pth ct ∈ pref ∨ ∃ pre, pth = pre ++ ".nex".data := by
  have hspec := write_alignments_spec outdir mainFormat ".nex" (by decide) alns
  unfold finishWrite at hmem
  rw [hspec] at hmem
  have h2 : Event.fileWrite pth ct ∈
      pref ++
        (alns.filterMap
          (fun p => p.2.map (fun c => (pathJoin outdir p.1 ++ ".nex".data, c)))).map
          (fun p => Event.fileWrite p.1 p.2) ++
        (alns.filterMap
          (fun p => match p.2 with | none => some p.1 | some _ => none)).map
          (fun l => Event.warn l) := hmem
  rcases List.mem_append.mp h2 with h3 | h3
  · rcases List.mem_append.mp h3 with h4 | h4
    · exact Or.inl h4
    · right
      rcases List.mem_map.mp h4 with ⟨q, hq, hfw⟩
      have hq1 : q.1 = pth := by
        injection hfw with ha hb
      rcases List.mem_filterMap.mp hq with ⟨a, _, hqa⟩
      rcases Option.map_eq_some'.mp hqa with ⟨cc, _, hpair⟩
      refine ⟨pathJoin outdir a.1, ?_⟩
      rw [← hq1, ← hpair]
  · rcases List.mem_map.mp h3 with ⟨w, _, hw⟩
    exact Event.noConfusion hw

lemma dispatchStage_fileWrite (args : Args) (cpuCount : Nat)
    (alignFn : List Char × List Record → Option (List Char)) (order : List Nat)
    (ev0 : List Event) (loci : LocusDict) (warns : List (List Char))
    (pth ct : List Char) (hev0 : ∀ p c, Event.fileWrite p c ∉ ev0)
    (hmem : Event.fileWrite pth ct ∈
      (dispatchStage args cpuCount alignFn order ev0 loci warns).1) :
    ∃ pre, pth = pre ++ ".nex".data := by
  have htsPar : ∀ e ∈ order.filterMap
      (fun i => (loci.get? i).map (fun j => Event.tmpfile j.1)),
      ∃ l, e = Event.tmpfile l := by
    intro e he
    rcases List.mem_filterMap.mp he with ⟨i, _, hi⟩
    rcases Option.map_eq_some'.mp hi with ⟨j, _, hj⟩
    exact ⟨j.1, hj.symm⟩
  have htsSeq : ∀ e ∈ loci.map (fun j => Event.tmpfile j.1),
      ∃ l, e = Event.tmpfile l := by
    intro e he
    rcases List.mem_map.mp he with ⟨j, _, hj⟩
    exact ⟨j.1, hj.symm⟩
  unfold dispatchStage at hmem
  by_cases hc : 1 < args.cores
  · rw [if_pos hc] at hmem
    by_cases hle : args.cores ≤ cpuCount
    · rw [if_pos hle] at hmem
      cases hpm : poolMapModel (fun j => (j.1, alignFn j)) loci order with
      | none =>
        rw [hpm] at hmem
        exact absurd (show Event.fileWrite pth ct ∈
            ev0 ++ warns.map (fun w => Event.warn w) from hmem)
          (no_fileWrite_warns ev0 warns hev0 pth ct)
      | some alignments =>
        rw [hpm] at hmem
        have h2 : Event.fileWrite pth ct ∈
            (finishWrite args.outdir
              (ev0 ++ warns.map (fun w => Event.warn w) ++
                order.filterMap (fun i => (loci.get? i).map (fun j => Event.tmpfile j.1)))
              alignments).1 := hmem
        rcases finishWrite_fileWrite _ _ _ _ _ h2 with h3 | h3
        · exact absurd h3 (no_fileWrite_pref ev0 warns _ hev0 htsPar pth ct)
        · exact h3
    · rw [if_neg hle] at hmem
      exact absurd (show Event.fileWrite pth ct ∈
          ev0 ++ warns.map (fun w => Event.warn w) from hmem)
        (no_fileWrite_warns ev0 warns hev0 pth ct)
  · rw [if_neg hc] at hmem
    have h2 : Event.fileWrite pth ct ∈
        (finishWrite args.outdir
          (ev0 ++ warns.map (fun w => Event.warn w) ++ loci.map (fun j => Event.tmpfile j.1))
          (seqMapResults (fun j => (j.1, alignFn j)) loci)).1 := hmem
    rcases finishWrite_fileWrite _ _ _ _ _ h2 with h3 | h3
    · exact absurd h3 (no_fileWrite_pref ev0 warns _ hev0 htsSeq pth ct)
    · exact h3

/-- C9: the configured output format is not reachable from the public
interface: `main` invokes the writer with its default format, so whatever
the arguments, records, Aligner behaviour or worker schedule, every file a
run writes has a path ending in `.nex`. -/
theorem main_output_nexus_only (args : Args) (cpuCount : Nat)
    (outdirExists : Bool) (answer : List Char) (records : List Record)
    (alignFn : List Char × List Record → Option (List Char)) (order : List Nat)
    (pth ct : List Char)
    (hmem : Event.fileWrite pth ct ∈
      (mainModel args cpuCount outdirExists answer records alignFn order).1) :
    ∃ pre, pth = pre ++ ".nex".data := by
  unfold mainModel at hmem
  rcases hco : create_output_dir outdirExists answer with ⟨ev0, ex0⟩
  rw [hco] at hmem
  have hev0 : ∀ p c, Event.fileWrite p c ∉ ev0 := by
    intro p c hpc
    have he := create_output_dir_events outdirExists answer (Event.fileWrite p c)
      (by rw [hco]; exact hpc)
    rcases he with h | h | h <;> exact Event.noConfusion h
  cases ex0 with
  | some e =>
    exact absurd (show Event.fileWrite pth ct ∈ ev0 from hmem) (hev0 pth ct)
  | none =>
    cases hfd : get_fasta_dict args.faircloth args.ambiguous args.notstrict
        args.species records with
    | error e =>
      rw [hfd] at hmem
      exact absurd (show Event.fileWrite pth ct ∈ ev0 from hmem) (hev0 pth ct)
    | ok lw =>
      rw [hfd] at hmem
      obtain ⟨loci, warns⟩ := lw
      have h2 : Event.fileWrite pth ct ∈
          (dispatchStage args cpuCount alignFn order ev0 loci warns).1 := hmem
      exact dispatchStage_fileWrite args cpuCount alignFn order ev0 loci warns
        pth ct hev0 h2

/-- Closed instance of the C9 theorem: the one file written by a concrete
run ends in `.nex`. -/
theorem main_output_nexus_only_witness :
    ∃ pre, ("out/uce-1.nex".data : List Char) = pre ++ ".nex".data :=
  main_output_nexus_only ⟨"out".data, 1, false, false, false, 1⟩ 4 false "n".data
    [⟨"sA|uce-1".data, "ACGT".data⟩] (fun _ => some "D".data) []
    "out/uce-1.nex".data "D".data (by decide)

/-- C3 counterexample: with `cores=8` requested on a host with 4, the run
does abort at the capacity assertion -- but only after the output
directory has already been created: `create_output_dir` runs at line 232,
before the line-244 assert, so the trace of the aborted run already
contains the `makedirs` side effect, contradicting the claim that no
filesystem state is created or modified before the abort. -/
theorem capacity_abort_after_makedirs_cx :
    mainModel ⟨"out".data, 4, false, false, false, 8⟩ 4 false [] [] (fun _ => none) [] =
      ([Event.makedirs], some (RunExit.raised PyErr.assertionError)) ∧
    Event.makedirs ∈
      (mainModel ⟨"out".data, 4, false, false, false, 8⟩ 4 false [] [] (fun _ => none) []).1 := by
  constructor
  · decide
  · decide

lemma dispatchStage_capacity_abort (args : Args) (cpuCount : Nat)
    (alignFn : List Char × List Record → Option (List Char)) (order : List Nat)
    (ev0 : List Event) (loci : LocusDict) (warns : List (List Char))
    (hc : 1 < args.cores) (hnle : ¬ args.cores ≤ cpuCount) :
    dispatchStage args cpuCount alignFn order ev0 loci warns =
      (ev0 ++ warns.map (fun w => Event.warn w),
        some (RunExit.raised PyErr.assertionError)) := by
  unfold dispatchStage
  rw [if_pos hc, if_neg hnle]

/-- C3 amended: when more workers are requested than the host offers (with
`cores > 1` so the parallel branch runs), the run aborts at the capacity
assertion before any job is dispatched -- so before any temporary file is
created and before any output file is written -- but only after the output
directory has been created (line 232 precedes the line-244 assert), so the
aborted run's trace already holds the `makedirs` (and, on a confirmed
clear, `rmtree`) side effect. -/
theorem capacity_abort_amended (args : Args) (cpuCount : Nat)
    (outdirExists : Bool) (answer : List Char) (records : List Record)
    (alignFn : List Char × List Record → Option (List Char)) (order : List Nat)
    (loci : LocusDict) (warns : List (List Char))
    (hc : 1 < args.cores) (hcap : cpuCount < args.cores)
    (hdir : outdirExists = false ∨ answer = "Y".data)
    (hfd : get_fasta_dict args.faircloth args.ambiguous args.notstrict args.species records =
      Except.ok (loci, warns)) :
    ∃ tr, mainModel args cpuCount outdirExists answer records alignFn order =
        (tr, some (RunExit.raised PyErr.assertionError)) ∧
      Event.makedirs ∈ tr ∧
      ∀ e ∈ tr, (∀ l, e ≠ Event.tmpfile l) ∧ (∀ p c, e ≠ Event.fileWrite p c) := by
  have hnle : ¬ args.cores ≤ cpuCount := Nat.not_le.mpr hcap
  have hco : create_output_dir outdirExists answer =
      ((create_output_dir outdirExists answer).1, none) := by
    rcases hdir with h | h
    · subst h; rfl
    · subst h; cases outdirExists <;> simp [create_output_dir]
  have hmain : mainModel args cpuCount outdirExists answer records alignFn order =
      ((create_output_dir outdirExists answer).1 ++ warns.map (fun w => Event.warn w),
        some (RunExit.raised PyErr.assertionError)) := by
    unfold mainModel
    rw [hco, hfd]
    exact dispatchStage_capacity_abort args cpuCount alignFn order _ loci warns hc hnle
  refine ⟨_, hmain, ?_, ?_⟩
  · exact List.mem_append_left _ (makedirs_mem_create outdirExists answer hdir)
  · intro e he
    rcases List.mem_append.mp he with h1 | h2
    · rcases create_output_dir_events outdirExists answer e h1 with h | h | h <;>
        subst h <;> exact ⟨fun l => by simp, fun p c => by simp⟩
    · rcases List.mem_map.mp h2 with ⟨w, _, hw⟩
      subst hw
      exact ⟨fun l => by simp, fun p c => by simp⟩

/-- Closed instance of the amended C3 theorem: a concrete over-subscribed
run whose trace holds `makedirs` but no temporary file and no file write. -/
theorem capacity_abort_amended_witness :
    ∃ tr, mainModel ⟨"out".data, 1, false, false, false, 9⟩ 2 false "n".data []
        (fun _ => none) [] = (tr, some (RunExit.raised PyErr.assertionError)) ∧
      Event.makedirs ∈ tr ∧
      ∀ e ∈ tr, (∀ l, e ≠ Event.tmpfile l) ∧ (∀ p c, e ≠ Event.fileWrite p c) :=
  capacity_abort_amended ⟨"out".data, 1, false, false, false, 9⟩ 2 false "n".data []
    (fun _ => none) [] [] [] (by decide) (by decide) (Or.inl rfl) (by decide)
